import Mathlib

/-!
# Bounded research-history store: a shallow embedding

This file embeds the client-side research-history cache implemented in
`frontend/nextjs/hooks/useResearchHistory.ts` and proves properties of it.

Modelling conventions:
* JavaScript strings are modelled as `List Char` (`Text`); `s.substring(0, n)`
  becomes `List.take n`, `s.length` becomes `List.length`, `+` on strings
  becomes `++`.
* JavaScript values that may or may not be strings (the `content` / `output`
  fields of `orderedData` entries) are modelled by a JSON value type `JVal`;
  `typeof v === 'string'` becomes a match on the `JVal.str` constructor.
* `localStorage` holds at most the single key `researchHistory`; its state is
  an `Option Stored`, where `Stored` classifies the persisted text as the
  serialization of an item array, some other JSON value, or unparseable text.
* `localStorage.setItem` can throw; the environment `Env` decides, for each
  written string, whether the write succeeds, throws a quota-exceeded
  `DOMException`, or throws some other error.
* `JSON.stringify` is modelled by `jvalToText`; `new Blob([s]).size` is the
  UTF-8 byte count `utf8Len s.data`.
-/

namespace ResearchHistory

/-- JavaScript string contents, as a sequence of characters. -/
abbrev Text := List Char

/-- `const MAX_HISTORY_ITEMS = 15` — maximum number of items to keep. -/
def MAX_HISTORY_ITEMS : Nat := 15

/-- `const MAX_STORAGE_SIZE = 4 * 1024 * 1024` — 4MB limit for localStorage. -/
def MAX_STORAGE_SIZE : Nat := 4 * 1024 * 1024

/-- `const MAX_ANSWER_LENGTH = 5000` — truncate long answers. -/
def MAX_ANSWER_LENGTH : Nat := 5000

/-- `const MAX_ORDERED_DATA_ITEMS = 3` — keep only first few orderedData items. -/
def MAX_ORDERED_DATA_ITEMS : Nat := 3

/-- A JSON value, used for the dynamically-typed fields of `orderedData`
entries and for parse results of persisted text. -/
inductive JVal where
  | str (s : Text)
  | num (n : Int)
  | bool (b : Bool)
  | null
  | arr (elems : List JVal)
  | obj (fields : List (Text × JVal))

/-- Modelled from the spec and from the `switch` in `cleanData`: the tagged
union `Data` of `types/data.ts` (that file is not part of the visible
sources).  Variants `basic`, `question`, `chat` carry a `content` field;
`differences` and `error` carry `content` and `output`; `langgraphButton`
carries a `link`; any other (unknown) variant is carried opaquely. -/
inductive Data where
  | basic (content : JVal)
  | langgraphButton (link : JVal)
  | differences (content output : JVal)
  | question (content : JVal)
  | chat (content : JVal)
  | error (content output : JVal)
  | unknown (raw : JVal)

/-- Modelled from the spec and from the fields used by `useResearchHistory`:
the `ResearchHistoryItem` record of `types/data.ts`. -/
structure ResearchHistoryItem where
  id : Text
  question : Text
  answer : Text
  timestamp : Nat
  orderedData : List Data

/-- UTF-8 byte count of a character sequence (`new Blob([s]).size`). -/
def utf8Len (s : Text) : Nat := (s.map Char.utf8Size).sum

/-- Lower-case hexadecimal digit. -/
def hexDigit (n : Nat) : Char := "0123456789abcdef".data.getD n '0'

/-- JSON string escaping of one character, as performed by `JSON.stringify`. -/
def escapeChar (c : Char) : Text :=
  if c = '"' then ['\\', '"']
  else if c = '\\' then ['\\', '\\']
  else if c = '\n' then ['\\', 'n']
  else if c = '\t' then ['\\', 't']
  else if c = '\r' then ['\\', 'r']
  else if c = '\x08' then ['\\', 'b']
  else if c = '\x0c' then ['\\', 'f']
  else if c.toNat < 0x20 then
    ['\\', 'u', '0', '0', hexDigit (c.toNat / 16), hexDigit (c.toNat % 16)]
  else [c]

/-- JSON string escaping (`JSON.stringify` on a string, without the
surrounding quotes). -/
def escapeText (s : Text) : Text := (s.map escapeChar).flatten

mutual

/-- `JSON.stringify` of a JSON value. -/
def jvalToText : JVal → Text
  | .str s => '"' :: escapeText s ++ ['"']
  | .num n => (toString n).data
  | .bool b => if b then "true".data else "false".data
  | .null => "null".data
  | .arr es => '[' :: arrBody es ++ [']']
  | .obj fs => '\x7b' :: objBody fs ++ ['\x7d']

/-- Comma-separated serialization of the elements of a JSON array. -/
def arrBody : List JVal → Text
  | [] => []
  | [v] => jvalToText v
  | v :: vs => jvalToText v ++ ',' :: arrBody vs

/-- Comma-separated serialization of the fields of a JSON object. -/
def objBody : List (Text × JVal) → Text
  | [] => []
  | [(k, v)] => '"' :: escapeText k ++ '"' :: ':' :: jvalToText v
  | (k, v) :: fs => ('"' :: escapeText k ++ '"' :: ':' :: jvalToText v) ++ ',' :: objBody fs

end

/-- The JSON value serialized for one `orderedData` entry.  Field order
follows the object literals in the source file. -/
def dataToJVal : Data → JVal
  | .basic c => .obj [("type".data, .str "basic".data), ("content".data, c)]
  | .langgraphButton l => .obj [("type".data, .str "langgraphButton".data), ("link".data, l)]
  | .differences c o =>
      .obj [("type".data, .str "differences".data), ("content".data, c), ("output".data, o)]
  | .question c => .obj [("type".data, .str "question".data), ("content".data, c)]
  | .chat c => .obj [("type".data, .str "chat".data), ("content".data, c)]
  | .error c o =>
      .obj [("type".data, .str "error".data), ("content".data, c), ("output".data, o)]
  | .unknown r => r

/-- The JSON value serialized for one history item.  Field order follows the
`newItem` object literal in `saveResearch`. -/
def itemToJVal (it : ResearchHistoryItem) : JVal :=
  .obj [("id".data, .str it.id),
        ("question".data, .str it.question),
        ("answer".data, .str it.answer),
        ("timestamp".data, .num it.timestamp),
        ("orderedData".data, .arr (it.orderedData.map dataToJVal))]

/-- `JSON.stringify` of a history collection. -/
def encodeHistory (l : List ResearchHistoryItem) : Text :=
  jvalToText (.arr (l.map itemToJVal))

/-- `getStorageSize`: `new Blob([JSON.stringify(data)]).size`, i.e. the UTF-8
byte count of the serialized collection. -/
def getStorageSize (l : List ResearchHistoryItem) : Nat :=
  utf8Len (encodeHistory l)

/-! ## `cleanData` -/

/-- The repeated `content` expression in `cleanData`:
`typeof c === 'string' ? c.substring(0, 1000) + (c.length > 1000 ? '...' : '') : c`. -/
def cleanContent (c : JVal) : JVal :=
  match c with
  | .str s => .str (s.take 1000 ++ (if s.length > 1000 then "...".data else []))
  | c => c

/-- The repeated `output` expression in `cleanData`:
`typeof o === 'string' && o.length > 500 ? o.substring(0, 500) + '...' : o`. -/
def cleanOutput (o : JVal) : JVal :=
  match o with
  | .str s => if s.length > 500 then .str (s.take 500 ++ "...".data) else .str s
  | o => o

/-- The `switch (item.type)` body of `cleanData`, applied to one entry. -/
def cleanDataItem : Data → Data
  | .basic c => .basic (cleanContent c)
  | .langgraphButton l => .langgraphButton l
  | .differences c o => .differences (cleanContent c) (cleanOutput o)
  | .question c => .question (cleanContent c)
  | .chat c => .chat (cleanContent c)
  | .error c o => .error (cleanContent c) (cleanOutput o)
  | .unknown r => .unknown r

/-- `cleanData`: `data.slice(0, MAX_ORDERED_DATA_ITEMS).map(item => ...)`. -/
def cleanData (data : List Data) : List Data :=
  (data.take MAX_ORDERED_DATA_ITEMS).map cleanDataItem

/-! ## `cleanupHistory` -/

/-- First step of `cleanupHistory`:
`[...currentHistory].sort((a, b) => b.timestamp - a.timestamp).slice(0, MAX_HISTORY_ITEMS)`.
JavaScript `Array.prototype.sort` is stable, and the comparator orders by
timestamp descending; `List.mergeSort` with `b.timestamp ≤ a.timestamp` is
the stable descending sort. -/
def sortAndTrim (l : List ResearchHistoryItem) : List ResearchHistoryItem :=
  (l.mergeSort fun a b => b.timestamp ≤ a.timestamp).take MAX_HISTORY_ITEMS

/-- The per-item reduction of `cleanupHistory`'s second step:
`answer: item.answer.substring(0, MAX_ANSWER_LENGTH / 2) + (item.answer.length > MAX_ANSWER_LENGTH / 2 ? '...' : '')`,
`orderedData: item.orderedData.slice(0, 2)`. -/
def shrinkItem (item : ResearchHistoryItem) : ResearchHistoryItem :=
  { item with
    answer := item.answer.take (MAX_ANSWER_LENGTH / 2) ++
      (if item.answer.length > MAX_ANSWER_LENGTH / 2 then "...".data else []),
    orderedData := item.orderedData.take 2 }

/-- Second step of `cleanupHistory`: if the collection is still too large,
reduce the data held by every item. -/
def shrinkStage (l : List ResearchHistoryItem) : List ResearchHistoryItem :=
  if getStorageSize l > MAX_STORAGE_SIZE then l.map shrinkItem else l

/-- One unfolding of `cleanupHistory`'s `while` loop, with an explicit
iteration bound (each iteration shortens the list by one, so any bound of at
least `l.length` iterations lets the loop run to completion; structural
recursion on the bound keeps the definition kernel-reducible). -/
def dropLoop : Nat → List ResearchHistoryItem → List ResearchHistoryItem
  | 0, l => l
  | fuel + 1, l =>
    if getStorageSize l > MAX_STORAGE_SIZE ∧ 1 < l.length then
      dropLoop fuel l.dropLast
    else l

/-- Third step of `cleanupHistory`, the `while` loop:
`while (getStorageSize(cleanHistory) > MAX_STORAGE_SIZE && cleanHistory.length > 1) cleanHistory = cleanHistory.slice(0, -1)`. -/
def dropUntilFits (l : List ResearchHistoryItem) : List ResearchHistoryItem :=
  dropLoop l.length l

/-- `cleanupHistory`: sort newest-first and keep 15, shrink per-item data if
still over budget, then drop oldest items while over budget. -/
def cleanupHistory (currentHistory : List ResearchHistoryItem) : List ResearchHistoryItem :=
  dropUntilFits (shrinkStage (sortAndTrim currentHistory))

/-! ## The persistence layer (`localStorage`, key `researchHistory`) -/

/-- Classification of the text persisted under the `researchHistory` key:
the serialization of an array of items (everything the store itself writes
has this form), some other JSON text (`JSON.parse` succeeds but
`Array.isArray` is false), or unparseable text (`JSON.parse` throws). -/
inductive Stored where
  | items (l : List ResearchHistoryItem)
  | nonArrayJson (v : JVal)
  | garbage (t : Text)

/-- The persisted text a `Stored` value stands for. -/
def storedText : Stored → Text
  | .items l => encodeHistory l
  | .nonArrayJson v => jvalToText v
  | .garbage t => t

/-- Outcome of one `localStorage.setItem` call: success, a quota-exceeded
`DOMException`, or any other thrown error. -/
inductive SetOutcome where
  | ok
  | quota
  | other

/-- The environment decides, from the written string, how each
`localStorage.setItem` call behaves. -/
structure Env where
  attempt : Text → SetOutcome

/-- `safeSetItem(key, value)` for the `researchHistory` key.  Returns the
new store state and the boolean result.  On a quota-exceeded error it
re-reads the persisted value, compacts it and retries; any failure inside
that recovery removes the key.  An empty persisted string is falsy in
`if (currentData)`, so recovery is skipped and `false` returned. -/
def safeSetItem (env : Env) (st : Option Stored) (value : Stored) :
    Option Stored × Bool :=
  match env.attempt (storedText value) with
  | .ok => (some value, true)
  | .other => (st, false)
  | .quota =>
    match st with
    | none => (st, false)
    | some cur =>
      if storedText cur = [] then (st, false)
      else
        match cur with
        | .garbage _ => (none, false)
        | .nonArrayJson _ =>
          let cleaned := cleanupHistory []
          match env.attempt (storedText (.items cleaned)) with
          | .ok => (some (.items cleaned), true)
          | _ => (none, false)
        | .items parsed =>
          let cleaned := cleanupHistory parsed
          match env.attempt (storedText (.items cleaned)) with
          | .ok => (some (.items cleaned), true)
          | _ => (none, false)

/-- The `useEffect` load: read the persisted value, parse it, compact a
well-formed array (persisting the compacted form if the length changed),
reset to empty on a non-array value, and remove the key when parsing
throws.  Returns the in-memory collection and the new store state.  The
model is a total function: no parse error escapes to the caller. -/
def load (env : Env) (st : Option Stored) :
    List ResearchHistoryItem × Option Stored :=
  match st with
  | none => ([], none)
  | some cur =>
    if storedText cur = [] then ([], st)
    else
      match cur with
      | .garbage _ => ([], none)
      | .nonArrayJson _ => ([], st)
      | .items parsed =>
        let cleanedHistory := cleanupHistory parsed
        if cleanedHistory.length ≠ parsed.length then
          (cleanedHistory, (safeSetItem env st (.items cleanedHistory)).1)
        else
          (cleanedHistory, st)

/-! ## `saveResearch`, `getResearchById`, `deleteResearch`, `clearHistory` -/

/-- The `cleanedAnswer` computation in `saveResearch`:
`answer.length > MAX_ANSWER_LENGTH ? answer.substring(0, MAX_ANSWER_LENGTH) + '...' : answer`. -/
def cleanAnswer (answer : Text) : Text :=
  if answer.length > MAX_ANSWER_LENGTH then answer.take MAX_ANSWER_LENGTH ++ "...".data
  else answer

/-- The `newItem` object literal in `saveResearch`; `now` stands for
`Date.now()`. -/
def mkNewItem (now : Nat) (question answer : Text) (orderedData : List Data) :
    ResearchHistoryItem :=
  { id := (toString now).data,
    question := question.take 200,
    answer := cleanAnswer answer,
    timestamp := now,
    orderedData := cleanData orderedData }

/-- The `minimalHistory` computed on the `saveResearch` fallback path:
`cleanedHistory.slice(0, 5)` with question ≤ 100 chars, answer ≤ 500 chars
and no orderedData. -/
def minimalHistoryOf (cleanedHistory : List ResearchHistoryItem) :
    List ResearchHistoryItem :=
  (cleanedHistory.take 5).map fun item =>
    { id := item.id,
      question := item.question.take 100,
      answer := item.answer.take 500,
      timestamp := item.timestamp,
      orderedData := [] }

/-- Result of one `saveResearch` call: the in-memory collection, the store
state, and the returned id. -/
structure SaveResult where
  history : List ResearchHistoryItem
  store : Option Stored
  ret : Text

/-- `saveResearch(question, answer, orderedData)`: build the truncated new
item, prepend it, compact, persist; on persistence failure fall back to a
minimal five-item collection. -/
def saveResearch (env : Env) (now : Nat) (history : List ResearchHistoryItem)
    (st : Option Stored) (question answer : Text) (orderedData : List Data) :
    SaveResult :=
  let newItem := mkNewItem now question answer orderedData
  let updatedHistory := newItem :: history
  let cleanedHistory := cleanupHistory updatedHistory
  match safeSetItem env st (.items cleanedHistory) with
  | (st1, true) => { history := cleanedHistory, store := st1, ret := newItem.id }
  | (st1, false) =>
    let minimalHistory := minimalHistoryOf cleanedHistory
    { history := minimalHistory,
      store := (safeSetItem env st1 (.items minimalHistory)).1,
      ret := newItem.id }

/-- `getResearchById(id)`: linear lookup in the in-memory collection. -/
def getResearchById (history : List ResearchHistoryItem) (id : Text) :
    Option ResearchHistoryItem :=
  history.find? fun item => item.id = id

/-- `deleteResearch(id)`: filter the item out and persist the result. -/
def deleteResearch (env : Env) (history : List ResearchHistoryItem)
    (st : Option Stored) (id : Text) :
    List ResearchHistoryItem × Option Stored :=
  let updatedHistory := history.filter fun item => item.id ≠ id
  (updatedHistory, (safeSetItem env st (.items updatedHistory)).1)

/-- `clearHistory()`: empty the collection and remove the key. -/
def clearHistory : List ResearchHistoryItem × Option Stored := ([], none)

/-! ## Observers and concrete fixtures used by the statements below -/

/-- The `content` field of an `orderedData` entry, when the variant has one. -/
def contentOf : Data → Option JVal
  | .basic c => some c
  | .differences c _ => some c
  | .question c => some c
  | .chat c => some c
  | .error c _ => some c
  | .langgraphButton _ => none
  | .unknown _ => none

/-- The `output` field of an `orderedData` entry, when the variant has one. -/
def outputOf : Data → Option JVal
  | .differences _ o => some o
  | .error _ o => some o
  | _ => none

/-- Whether a JSON value is a string (`typeof v === 'string'`). -/
def isStringVal : JVal → Bool
  | .str _ => true
  | _ => false

/-- An environment in which every `setItem` call succeeds. -/
def envAlwaysOk : Env := ⟨fun _ => .ok⟩

/-- An environment in which every `setItem` call throws a non-quota error. -/
def envAlwaysOther : Env := ⟨fun _ => .other⟩

/-- A record holding an `n`-character answer and nothing else of note. -/
def plainItem (n : Nat) : ResearchHistoryItem :=
  { id := "1".data, question := [], answer := List.replicate n 'a',
    timestamp := 0, orderedData := [] }

/-- A record whose serialized size alone exceeds the 4 MiB storage budget. -/
def bigItem : ResearchHistoryItem := plainItem (MAX_STORAGE_SIZE + 1)

/-- A small record standing for previously persisted (stale) content. -/
def staleItem : ResearchHistoryItem :=
  { id := "0".data, question := [], answer := [], timestamp := 0, orderedData := [] }

/-- An environment that rejects (quota-exceeded) exactly the serialization of
the one-item collection built by saving into an empty history at time 1, and
accepts every other write. -/
def quotaOnNewEnv : Env :=
  ⟨fun t =>
    if t = storedText (.items (cleanupHistory [mkNewItem 1 [] [] []])) then .quota
    else .ok⟩

/-- A two-record history used to exercise `deleteResearch`. -/
def pairHistory : List ResearchHistoryItem :=
  [{ id := "1".data, question := "p".data, answer := "x".data, timestamp := 2, orderedData := [] },
   { id := "2".data, question := "q".data, answer := "y".data, timestamp := 1, orderedData := [] }]

/-! ## Byte-size arithmetic -/

@[simp] theorem utf8Len_nil : utf8Len [] = 0 := rfl

@[simp] theorem utf8Len_cons (c : Char) (s : Text) :
    utf8Len (c :: s) = c.utf8Size + utf8Len s := by
  simp [utf8Len]

@[simp] theorem utf8Len_append (s t : Text) :
    utf8Len (s ++ t) = utf8Len s + utf8Len t := by
  simp [utf8Len]

theorem utf8Len_replicate_a (n : Nat) :
    utf8Len (List.replicate n 'a') = n := by
  induction n with
  | zero => rfl
  | succ n ih =>
    have h1 : 'a'.utf8Size = 1 := by decide
    simp [List.replicate_succ, ih, h1]
    omega

theorem escapeText_nil : escapeText [] = [] := rfl

theorem escapeText_cons (c : Char) (s : Text) :
    escapeText (c :: s) = escapeChar c ++ escapeText s := by
  simp [escapeText]

theorem escapeText_replicate_a (n : Nat) :
    escapeText (List.replicate n 'a') = List.replicate n 'a' := by
  induction n with
  | zero => rfl
  | succ n ih =>
    rw [List.replicate_succ, escapeText_cons, ih]
    rfl

/-! ## Properties of the `while` loop (`dropLoop` / `dropUntilFits`) -/

theorem dropLoop_sublist (fuel : Nat) (l : List ResearchHistoryItem) :
    List.Sublist (dropLoop fuel l) l := by
  induction fuel generalizing l with
  | zero => simp [dropLoop]
  | succ fuel ih =>
    rw [dropLoop]
    split
    · exact (ih l.dropLast).trans (List.dropLast_sublist l)
    · exact List.Sublist.refl l

theorem dropLoop_length_le (fuel : Nat) (l : List ResearchHistoryItem) :
    (dropLoop fuel l).length ≤ l.length :=
  (dropLoop_sublist fuel l).length_le

theorem dropLoop_post (fuel : Nat) (l : List ResearchHistoryItem)
    (h : l.length ≤ fuel + 1) :
    getStorageSize (dropLoop fuel l) ≤ MAX_STORAGE_SIZE ∨ (dropLoop fuel l).length ≤ 1 := by
  induction fuel generalizing l with
  | zero =>
    right
    simpa [dropLoop] using h
  | succ fuel ih =>
    rw [dropLoop]
    split
    · exact ih l.dropLast (by simp [List.length_dropLast]; omega)
    · rename_i hcond
      rw [Classical.not_and_iff_or_not_not] at hcond
      omega

theorem head?_dropLast_of_two_le (l : List ResearchHistoryItem) (h : 2 ≤ l.length) :
    l.dropLast.head? = l.head? := by
  match l, h with
  | a :: b :: t, _ => simp

theorem dropLoop_head? (fuel : Nat) (l : List ResearchHistoryItem) :
    (dropLoop fuel l).head? = l.head? := by
  induction fuel generalizing l with
  | zero => rfl
  | succ fuel ih =>
    rw [dropLoop]
    split
    · rename_i hcond
      rw [ih l.dropLast, head?_dropLast_of_two_le l (by omega)]
    · rfl

theorem dropUntilFits_sublist (l : List ResearchHistoryItem) :
    List.Sublist (dropUntilFits l) l := dropLoop_sublist _ l

theorem dropUntilFits_post (l : List ResearchHistoryItem) :
    getStorageSize (dropUntilFits l) ≤ MAX_STORAGE_SIZE ∨ (dropUntilFits l).length ≤ 1 :=
  dropLoop_post l.length l (by omega)

/-! ## Properties of `sortAndTrim` and `shrinkStage` -/

theorem mem_of_mem_sortAndTrim {a : ResearchHistoryItem} {l : List ResearchHistoryItem}
    (h : a ∈ sortAndTrim l) : a ∈ l := by
  have := List.mem_of_mem_take h
  simpa using this

theorem sortAndTrim_length_le (l : List ResearchHistoryItem) :
    (sortAndTrim l).length ≤ MAX_HISTORY_ITEMS := by
  simp [sortAndTrim]

theorem sortAndTrim_sorted (l : List ResearchHistoryItem) :
    (sortAndTrim l).Pairwise fun a b => b.timestamp ≤ a.timestamp := by
  have hs :
      ((l.mergeSort fun a b => b.timestamp ≤ a.timestamp).Pairwise
        fun a b => (decide (b.timestamp ≤ a.timestamp)) = true) := by
    apply List.sorted_mergeSort
    · intro a b c hab hbc
      simp only [decide_eq_true_eq] at *
      omega
    · intro a b
      simp only [Bool.or_eq_true, decide_eq_true_eq]
      omega
  have hs2 : ((l.mergeSort fun a b => b.timestamp ≤ a.timestamp).Pairwise
      fun a b => b.timestamp ≤ a.timestamp) :=
    hs.imp (by intro a b h; exact of_decide_eq_true h)
  exact hs2.sublist (List.take_sublist _ _)

theorem shrinkItem_id (item : ResearchHistoryItem) : (shrinkItem item).id = item.id := rfl

theorem shrinkItem_timestamp (item : ResearchHistoryItem) :
    (shrinkItem item).timestamp = item.timestamp := rfl

theorem mem_shrinkStage {a : ResearchHistoryItem} {l : List ResearchHistoryItem}
    (h : a ∈ shrinkStage l) :
    ∃ o ∈ l, a.id = o.id ∧ a.timestamp = o.timestamp := by
  unfold shrinkStage at h
  split at h
  · obtain ⟨o, ho, rfl⟩ := List.mem_map.1 h
    exact ⟨o, ho, rfl, rfl⟩
  · exact ⟨a, h, rfl, rfl⟩

theorem shrinkStage_length (l : List ResearchHistoryItem) :
    (shrinkStage l).length = l.length := by
  unfold shrinkStage
  split <;> simp

theorem shrinkStage_sorted {l : List ResearchHistoryItem}
    (h : l.Pairwise fun a b => b.timestamp ≤ a.timestamp) :
    (shrinkStage l).Pairwise fun a b => b.timestamp ≤ a.timestamp := by
  unfold shrinkStage
  split
  · exact List.pairwise_map.2 (by simpa [shrinkItem_timestamp] using h)
  · exact h

theorem shrinkStage_head? (l : List ResearchHistoryItem) :
    ∃ f : ResearchHistoryItem → ResearchHistoryItem,
      (∀ x, (f x).id = x.id ∧ (f x).timestamp = x.timestamp) ∧
      (shrinkStage l).head? = l.head?.map f := by
  unfold shrinkStage
  split
  · exact ⟨shrinkItem, fun x => ⟨rfl, rfl⟩, by simp⟩
  · exact ⟨id, fun x => ⟨rfl, rfl⟩, by simp⟩

/-! ## Properties of `cleanupHistory` -/

theorem cleanupHistory_length_le (l : List ResearchHistoryItem) :
    (cleanupHistory l).length ≤ MAX_HISTORY_ITEMS := by
  unfold cleanupHistory dropUntilFits
  calc (dropLoop _ (shrinkStage (sortAndTrim l))).length
      ≤ (shrinkStage (sortAndTrim l)).length := dropLoop_length_le _ _
    _ = (sortAndTrim l).length := shrinkStage_length _
    _ ≤ MAX_HISTORY_ITEMS := sortAndTrim_length_le l

theorem cleanupHistory_size_or_one (l : List ResearchHistoryItem) :
    getStorageSize (cleanupHistory l) ≤ MAX_STORAGE_SIZE ∨ (cleanupHistory l).length ≤ 1 :=
  dropUntilFits_post _

theorem cleanupHistory_sorted (l : List ResearchHistoryItem) :
    (cleanupHistory l).Pairwise fun a b => b.timestamp ≤ a.timestamp :=
  ((shrinkStage_sorted (sortAndTrim_sorted l)).sublist (dropUntilFits_sublist _))

theorem mem_cleanupHistory {a : ResearchHistoryItem} {l : List ResearchHistoryItem}
    (h : a ∈ cleanupHistory l) :
    ∃ o ∈ l, a.id = o.id ∧ a.timestamp = o.timestamp := by
  unfold cleanupHistory at h
  have h2 := (dropUntilFits_sublist _).mem h
  obtain ⟨o, ho, hid, hts⟩ := mem_shrinkStage h2
  exact ⟨o, mem_of_mem_sortAndTrim ho, hid, hts⟩

theorem mergeSort_head?_of_max (item : ResearchHistoryItem)
    (hist : List ResearchHistoryItem)
    (hlt : ∀ r ∈ hist, r.timestamp < item.timestamp) :
    ((item :: hist).mergeSort fun a b => b.timestamp ≤ a.timestamp).head? = some item := by
  have hperm := List.mergeSort_perm (item :: hist)
    fun a b => decide (b.timestamp ≤ a.timestamp)
  have hsorted :
      (((item :: hist).mergeSort fun a b => b.timestamp ≤ a.timestamp).Pairwise
        fun a b => (decide (b.timestamp ≤ a.timestamp)) = true) := by
    apply List.sorted_mergeSort
    · intro a b c hab hbc
      simp only [decide_eq_true_eq] at *
      omega
    · intro a b
      simp only [Bool.or_eq_true, decide_eq_true_eq]
      omega
  match hm : (item :: hist).mergeSort fun a b => b.timestamp ≤ a.timestamp with
  | [] =>
    rw [hm] at hperm
    exact absurd hperm.length_eq (by simp)
  | h0 :: t =>
    rw [hm] at hperm hsorted
    have hh0 : h0 ∈ item :: hist := hperm.subset (List.mem_cons_self h0 t)
    have hitem : item ∈ h0 :: t := hperm.mem_iff.2 (List.mem_cons_self item hist)
    have hle : ∀ b ∈ t, b.timestamp ≤ h0.timestamp := by
      intro b hb
      have := (List.pairwise_cons.1 hsorted).1 b hb
      simpa using this
    simp only [List.head?_cons, Option.some.injEq]
    rcases List.mem_cons.1 hitem with hcase | hcase
    · exact hcase.symm
    · rcases List.mem_cons.1 hh0 with h0case | h0case
      · exact h0case
      · exact absurd (hle item hcase) (by have := hlt h0 h0case; omega)

theorem cleanupHistory_head_max (item : ResearchHistoryItem)
    (hist : List ResearchHistoryItem)
    (hlt : ∀ r ∈ hist, r.timestamp < item.timestamp) :
    ∃ h0, (cleanupHistory (item :: hist)).head? = some h0 ∧
      h0.id = item.id ∧ h0.timestamp = item.timestamp := by
  have h1 : (sortAndTrim (item :: hist)).head? = some item := by
    unfold sortAndTrim
    rw [List.head?_take, if_neg (by simp [MAX_HISTORY_ITEMS]),
      mergeSort_head?_of_max item hist hlt]
  obtain ⟨f, hf, heq⟩ := shrinkStage_head? (sortAndTrim (item :: hist))
  refine ⟨f item, ?_, (hf item).1, (hf item).2⟩
  unfold cleanupHistory dropUntilFits
  rw [dropLoop_head?, heq, h1]
  rfl

/-! ## Concrete serialized sizes -/

theorem getStorageSize_plainItem (n : Nat) :
    getStorageSize [plainItem n] = 69 + n := by
  simp only [getStorageSize, encodeHistory, plainItem, itemToJVal, List.map_cons, List.map_nil,
    jvalToText, arrBody, objBody, escapeText_replicate_a]
  simp only [utf8Len_append, utf8Len_cons, utf8Len_replicate_a]
  simp [escapeText, escapeChar, utf8Len, hexDigit, Char.utf8Size]
  rw [show (List.map Char.utf8Size (toString (0 : Int)).data).sum = 1 from by decide]
  omega

theorem encodeHistory_ne_nil (l : List ResearchHistoryItem) :
    encodeHistory l ≠ [] := by
  unfold encodeHistory
  rw [jvalToText]
  simp

/-! ## Properties of `minimalHistoryOf` -/

theorem minimalHistoryOf_length_le (l : List ResearchHistoryItem) :
    (minimalHistoryOf l).length ≤ 5 := by
  simp [minimalHistoryOf]

theorem minimalHistoryOf_fields {it : ResearchHistoryItem} {l : List ResearchHistoryItem}
    (h : it ∈ minimalHistoryOf l) :
    it.question.length ≤ 100 ∧ it.answer.length ≤ 500 ∧ it.orderedData = [] := by
  unfold minimalHistoryOf at h
  obtain ⟨o, _, rfl⟩ := List.mem_map.1 h
  refine ⟨?_, ?_, rfl⟩ <;> simp [List.length_take]

theorem minimalHistoryOf_sorted {l : List ResearchHistoryItem}
    (h : l.Pairwise fun a b => b.timestamp ≤ a.timestamp) :
    (minimalHistoryOf l).Pairwise fun a b => b.timestamp ≤ a.timestamp := by
  unfold minimalHistoryOf
  apply List.pairwise_map.2
  exact (h.sublist (List.take_sublist _ _)).imp fun hab => hab

/-! ## The claims -/

/-- C1 (counterexample): saving a 5001-character answer produces a stored
answer of length 5003 (the first 5000 characters plus the three-character
ellipsis), so the claimed bound of 5000 characters does not hold. -/
theorem saveResearch_answer_counterexample :
    5000 < (List.replicate 5001 'a' : Text).length ∧
    ¬ (mkNewItem 0 [] (List.replicate 5001 'a') []).answer.length ≤ 5000 := by
  constructor
  · simp only [List.length_replicate]
    omega
  · simp only [mkNewItem, cleanAnswer, MAX_ANSWER_LENGTH, List.length_replicate]
    rw [if_pos (by omega)]
    have h3 : ("...".data : Text).length = 3 := rfl
    simp only [List.length_append, List.length_take, List.length_replicate, h3]
    omega

/-- C1 (amended): for an answer longer than 5000 characters, the record
constructed by `saveResearch` stores an answer of exactly 5003 characters —
the first 5000 plus the ellipsis marker — ending in `'...'`; an answer of at
most 5000 characters is stored unchanged. -/
theorem saveResearch_answer_truncation (now : Nat) (q answer : Text) (od : List Data) :
    (5000 < answer.length →
      (mkNewItem now q answer od).answer.length = 5003 ∧
      ∃ pre, (mkNewItem now q answer od).answer = pre ++ "...".data) ∧
    (answer.length ≤ 5000 → (mkNewItem now q answer od).answer = answer) := by
  constructor
  · intro h
    refine ⟨?_, answer.take 5000, ?_⟩
    · simp only [mkNewItem, cleanAnswer, MAX_ANSWER_LENGTH]
      rw [if_pos h]
      have h3 : ("...".data : Text).length = 3 := rfl
      simp only [List.length_append, List.length_take, h3]
      omega
    · simp only [mkNewItem, cleanAnswer, MAX_ANSWER_LENGTH]
      rw [if_pos h]
  · intro h
    simp only [mkNewItem, cleanAnswer, MAX_ANSWER_LENGTH]
    rw [if_neg (by omega)]

/-- Witness for C1: the amended statement at the concrete 5001-character
answer. -/
theorem saveResearch_answer_truncation_witness :
    5000 < (List.replicate 5001 'a' : Text).length ∧
    ((mkNewItem 0 [] (List.replicate 5001 'a') []).answer.length = 5003 ∧
      ∃ pre, (mkNewItem 0 [] (List.replicate 5001 'a') []).answer = pre ++ "...".data) :=
  ⟨by simp only [List.length_replicate]; omega,
    (saveResearch_answer_truncation 0 [] (List.replicate 5001 'a') []).1
      (by simp only [List.length_replicate]; omega)⟩

/-- C3: compaction leaves at most `MAX_HISTORY_ITEMS = 15` records, and the
in-memory collection after any `saveResearch` call obeys the same bound, so
the bound is an invariant of every sequence of saves. -/
theorem history_count_invariant :
    (∀ l, (cleanupHistory l).length ≤ MAX_HISTORY_ITEMS) ∧
    (∀ env now history st q a od,
      (saveResearch env now history st q a od).history.length ≤ MAX_HISTORY_ITEMS) := by
  refine ⟨cleanupHistory_length_le, ?_⟩
  intro env now history st q a od
  unfold saveResearch
  rcases hss : safeSetItem env st
      (.items (cleanupHistory (mkNewItem now q a od :: history))) with ⟨st1, b⟩
  cases b
  · simp only [hss]
    calc (minimalHistoryOf (cleanupHistory (mkNewItem now q a od :: history))).length
        ≤ 5 := minimalHistoryOf_length_le _
      _ ≤ MAX_HISTORY_ITEMS := by decide
  · simp only [hss]
    exact cleanupHistory_length_le _

/-- C4 (counterexample): `deleteResearch` runs no compaction, so deleting
from a collection holding a single record whose serialization exceeds 4 MiB
leaves a collection whose serialized byte size still exceeds 4 MiB. -/
theorem deleteResearch_size_counterexample :
    (deleteResearch envAlwaysOk [bigItem] none "2".data).1 = [bigItem] ∧
    MAX_STORAGE_SIZE <
      getStorageSize (deleteResearch envAlwaysOk [bigItem] none "2".data).1 := by
  have hfilter : (deleteResearch envAlwaysOk [bigItem] none "2".data).1 = [bigItem] := by
    simp [deleteResearch, bigItem, plainItem]
  refine ⟨hfilter, ?_⟩
  rw [hfilter]
  show MAX_STORAGE_SIZE < getStorageSize [plainItem (MAX_STORAGE_SIZE + 1)]
  rw [getStorageSize_plainItem]
  omega

/-- C4 (amended): compaction guarantees the 4 MiB budget only down to a
single record — after `cleanupHistory` either the serialized size is within
the budget or at most one record remains; `deleteResearch` performs no
compaction at all, so no size bound holds after a delete. -/
theorem cleanupHistory_size_bound (l : List ResearchHistoryItem) :
    getStorageSize (cleanupHistory l) ≤ MAX_STORAGE_SIZE ∨
      (cleanupHistory l).length ≤ 1 :=
  cleanupHistory_size_or_one l

/-- C5: after any `saveResearch` call the in-memory collection is sorted by
timestamp in descending (newest-first) order, and so is every collection
returned by `load`; hence the property holds after any sequence of saves. -/
theorem history_sorted_newest_first :
    (∀ env now history st q a od,
      (saveResearch env now history st q a od).history.Pairwise
        fun x y => y.timestamp ≤ x.timestamp) ∧
    (∀ env st, (load env st).1.Pairwise fun x y => y.timestamp ≤ x.timestamp) := by
  constructor
  · intro env now history st q a od
    unfold saveResearch
    rcases hss : safeSetItem env st
        (.items (cleanupHistory (mkNewItem now q a od :: history))) with ⟨st1, b⟩
    cases b
    · simp only [hss]
      exact minimalHistoryOf_sorted (cleanupHistory_sorted _)
    · simp only [hss]
      exact cleanupHistory_sorted _
  · intro env st
    unfold load
    match st with
    | none => exact List.Pairwise.nil
    | some cur =>
      simp only
      split
      · exact List.Pairwise.nil
      · split
        · exact List.Pairwise.nil
        · exact List.Pairwise.nil
        · split
          · exact cleanupHistory_sorted _
          · exact cleanupHistory_sorted _

/-- A non-string JSON value is untouched by the `content` truncation. -/
theorem cleanContent_nonstring {c : JVal} (h : isStringVal c = false) :
    cleanContent c = c := by
  cases c <;> simp_all [isStringVal, cleanContent]

/-- A non-string JSON value is untouched by the `output` truncation. -/
theorem cleanOutput_nonstring {o : JVal} (h : isStringVal o = false) :
    cleanOutput o = o := by
  cases o <;> simp_all [isStringVal, cleanOutput]

/-- C6: in compaction, when the sorted-and-trimmed collection still exceeds
the 4 MiB budget, every record has its answer replaced by its first 2500
characters with the ellipsis appended exactly when the answer was longer
than 2500 characters, and its orderedData cut to its first 2 entries, all
other fields unchanged; when the size is within the budget at that stage,
the records pass through unchanged. -/
theorem shrinkStage_spec (l : List ResearchHistoryItem) :
    (MAX_STORAGE_SIZE < getStorageSize (sortAndTrim l) →
      List.Forall₂ (fun orig new =>
        new.answer = orig.answer.take 2500 ++
          (if 2500 < orig.answer.length then "...".data else []) ∧
        new.orderedData = orig.orderedData.take 2 ∧
        new.id = orig.id ∧ new.question = orig.question ∧
        new.timestamp = orig.timestamp)
        (sortAndTrim l) (shrinkStage (sortAndTrim l))) ∧
    (getStorageSize (sortAndTrim l) ≤ MAX_STORAGE_SIZE →
      shrinkStage (sortAndTrim l) = sortAndTrim l) := by
  constructor
  · intro hbig
    unfold shrinkStage
    rw [if_pos hbig]
    generalize sortAndTrim l = m
    induction m with
    | nil => exact .nil
    | cons a t ih =>
      refine List.Forall₂.cons ⟨rfl, rfl, rfl, rfl, rfl⟩ ih
  · intro hsmall
    unfold shrinkStage
    rw [if_neg (by omega)]

/-- Witness for C6: the within-budget branch at the empty collection. -/
theorem shrinkStage_spec_witness :
    getStorageSize (sortAndTrim []) ≤ MAX_STORAGE_SIZE ∧
    shrinkStage (sortAndTrim []) = sortAndTrim [] := by
  have h : getStorageSize (sortAndTrim []) ≤ MAX_STORAGE_SIZE := by
    simp only [sortAndTrim, List.mergeSort_nil, List.take_nil, getStorageSize,
      encodeHistory, List.map_nil]
    rw [jvalToText, arrBody]
    decide
  exact ⟨h, (shrinkStage_spec []).2 h⟩

/-- C8: when exactly one record carries the given id, `deleteResearch`
leaves one record fewer, none of the remaining records has that id, every
record with a different id is retained, and the remaining records keep
their relative order (the result is a sublist of the input). -/
theorem deleteResearch_removes_exactly_one (env : Env)
    (history : List ResearchHistoryItem) (st : Option Stored) (id : Text)
    (h : history.countP (fun it => it.id = id) = 1) :
    (deleteResearch env history st id).1.length + 1 = history.length ∧
    (∀ it ∈ (deleteResearch env history st id).1, it.id ≠ id) ∧
    (∀ it ∈ history, it.id ≠ id → it ∈ (deleteResearch env history st id).1) ∧
    List.Sublist (deleteResearch env history st id).1 history := by
  have hfil : (deleteResearch env history st id).1 =
      history.filter fun it => decide (it.id ≠ id) := rfl
  refine ⟨?_, ?_, ?_, ?_⟩
  · rw [hfil, ← List.countP_eq_length_filter]
    have hsplit := List.length_eq_countP_add_countP
      (p := fun it => decide (it.id = id)) history
    simp only [decide_eq_true_eq, ne_eq] at hsplit ⊢
    omega
  · intro it hit
    rw [hfil] at hit
    have := (List.mem_filter.1 hit).2
    simpa using this
  · intro it hit hne
    rw [hfil]
    exact List.mem_filter.2 ⟨hit, by simpa using hne⟩
  · rw [hfil]
    exact List.filter_sublist history

/-- Witness for C8: deleting id `"2"` from the two-record `pairHistory`. -/
theorem deleteResearch_removes_exactly_one_witness :
    pairHistory.countP (fun it => it.id = "2".data) = 1 ∧
    ((deleteResearch envAlwaysOk pairHistory none "2".data).1.length + 1 = pairHistory.length ∧
     (∀ it ∈ (deleteResearch envAlwaysOk pairHistory none "2".data).1, it.id ≠ "2".data) ∧
     (∀ it ∈ pairHistory, it.id ≠ "2".data →
        it ∈ (deleteResearch envAlwaysOk pairHistory none "2".data).1) ∧
     List.Sublist (deleteResearch envAlwaysOk pairHistory none "2".data).1 pairHistory) := by
  have h : pairHistory.countP (fun it => it.id = "2".data) = 1 := by decide
  exact ⟨h, deleteResearch_removes_exactly_one envAlwaysOk pairHistory none "2".data h⟩

/-- Per-entry form of the non-string pass-through property of `cleanData`. -/
theorem cleanDataItem_spec (a : Data) :
    (∀ c, contentOf a = some c → isStringVal c = false →
      contentOf (cleanDataItem a) = some c) ∧
    (∀ o, outputOf a = some o → isStringVal o = false →
      outputOf (cleanDataItem a) = some o) ∧
    (∀ r, a = .unknown r → cleanDataItem a = .unknown r) := by
  cases a with
  | basic c0 =>
    refine ⟨?_, ?_, ?_⟩
    · intro c hc hns
      injection hc with h
      subst h
      simp [contentOf, cleanDataItem, cleanContent_nonstring hns]
    · intro o ho hns
      simp [outputOf] at ho
    · intro r hr
      cases hr
  | langgraphButton lk =>
    refine ⟨?_, ?_, ?_⟩
    · intro c hc hns
      simp [contentOf] at hc
    · intro o ho hns
      simp [outputOf] at ho
    · intro r hr
      cases hr
  | differences c0 o0 =>
    refine ⟨?_, ?_, ?_⟩
    · intro c hc hns
      injection hc with h
      subst h
      simp [contentOf, cleanDataItem, cleanContent_nonstring hns]
    · intro o ho hns
      injection ho with h
      subst h
      simp [outputOf, cleanDataItem, cleanOutput_nonstring hns]
    · intro r hr
      cases hr
  | question c0 =>
    refine ⟨?_, ?_, ?_⟩
    · intro c hc hns
      injection hc with h
      subst h
      simp [contentOf, cleanDataItem, cleanContent_nonstring hns]
    · intro o ho hns
      simp [outputOf] at ho
    · intro r hr
      cases hr
  | chat c0 =>
    refine ⟨?_, ?_, ?_⟩
    · intro c hc hns
      injection hc with h
      subst h
      simp [contentOf, cleanDataItem, cleanContent_nonstring hns]
    · intro o ho hns
      simp [outputOf] at ho
    · intro r hr
      cases hr
  | error c0 o0 =>
    refine ⟨?_, ?_, ?_⟩
    · intro c hc hns
      injection hc with h
      subst h
      simp [contentOf, cleanDataItem, cleanContent_nonstring hns]
    · intro o ho hns
      injection ho with h
      subst h
      simp [outputOf, cleanDataItem, cleanOutput_nonstring hns]
    · intro r hr
      cases hr
  | unknown r0 =>
    refine ⟨?_, ?_, ?_⟩
    · intro c hc hns
      simp [contentOf] at hc
    · intro o ho hns
      simp [outputOf] at ho
    · intro r hr
      cases hr
      rfl

/-- C9: in the `cleanData` step of save, the character limits act only on
string-typed fields — every surviving entry keeps a non-string `content`
field unchanged, keeps a non-string `output` field unchanged, and an entry
of unknown variant passes through entirely unchanged. -/
theorem cleanData_nonstring_passthrough (data : List Data) :
    List.Forall₂ (fun orig new =>
      (∀ c, contentOf orig = some c → isStringVal c = false → contentOf new = some c) ∧
      (∀ o, outputOf orig = some o → isStringVal o = false → outputOf new = some o) ∧
      (∀ r, orig = .unknown r → new = .unknown r))
      (data.take MAX_ORDERED_DATA_ITEMS) (cleanData data) := by
  unfold cleanData
  generalize data.take MAX_ORDERED_DATA_ITEMS = m
  induction m with
  | nil => exact .nil
  | cons a t ih =>
    rw [List.map_cons]
    exact List.Forall₂.cons (cleanDataItem_spec a) ih


/-- C2 (counterexample): a persisted value that parses to a non-array (the
JSON number 5) makes `load` return the empty collection while leaving the
persisted key in place — the key is not cleared as claimed. -/
theorem load_nonArray_keeps_key :
    (load envAlwaysOk (some (.nonArrayJson (.num 5)))).1 = [] ∧
    (load envAlwaysOk (some (.nonArrayJson (.num 5)))).2 = some (.nonArrayJson (.num 5)) := by
  constructor
  · simp only [load]
    split <;> rfl
  · simp only [load]
    split <;> rfl

/-- C2 (amended): a nonempty unparseable persisted value makes `load` return
the empty collection and clear the key; a value that parses to a non-array
makes `load` return the empty collection but leaves the key in place; in
both cases `load` is a total function, so no parse error reaches the
caller. -/
theorem load_malformed_recovery (env : Env) (t : Text) (v : JVal) (ht : t ≠ []) :
    load env (some (.garbage t)) = ([], none) ∧
    load env (some (.nonArrayJson v)) = ([], some (.nonArrayJson v)) := by
  constructor
  · simp only [load]
    rw [if_neg (by simpa [storedText] using ht)]
  · simp only [load]
    split <;> rfl

/-- Witness for C2: the amended statement at the unparseable text `"x"` and
the non-array JSON value `true`. -/
theorem load_malformed_recovery_witness :
    ("x".data : Text) ≠ [] ∧
    (load envAlwaysOk (some (.garbage "x".data)) = ([], none) ∧
     load envAlwaysOk (some (.nonArrayJson (.bool true))) =
       ([], some (.nonArrayJson (.bool true)))) :=
  ⟨by decide, load_malformed_recovery envAlwaysOk "x".data (.bool true) (by decide)⟩

/-- C7: when the initial persist of the compacted collection reports failure
(its internal recovery included), `saveResearch` builds the minimal version
of the current collection — at most 5 records, question cut to 100
characters, answer cut to 500 characters, empty orderedData — attempts to
persist exactly that value, and replaces the in-memory collection with it;
when the initial persist succeeds, the in-memory collection is the compacted
collection, not the minimal one. -/
theorem saveResearch_minimal_fallback (env : Env) (now : Nat)
    (history : List ResearchHistoryItem) (st : Option Stored)
    (question answer : Text) (orderedData : List Data)
    (cleaned : List ResearchHistoryItem)
    (hc : cleaned = cleanupHistory (mkNewItem now question answer orderedData :: history)) :
    ((safeSetItem env st (.items cleaned)).2 = false →
      (saveResearch env now history st question answer orderedData).history =
        minimalHistoryOf cleaned ∧
      (saveResearch env now history st question answer orderedData).store =
        (safeSetItem env (safeSetItem env st (.items cleaned)).1
          (.items (minimalHistoryOf cleaned))).1 ∧
      (minimalHistoryOf cleaned).length ≤ 5 ∧
      (∀ it ∈ minimalHistoryOf cleaned,
        it.question.length ≤ 100 ∧ it.answer.length ≤ 500 ∧ it.orderedData = [])) ∧
    ((safeSetItem env st (.items cleaned)).2 = true →
      (saveResearch env now history st question answer orderedData).history = cleaned) := by
  subst hc
  simp only [saveResearch]
  rcases hss : safeSetItem env st
      (.items (cleanupHistory (mkNewItem now question answer orderedData :: history)))
    with ⟨st1, b⟩
  cases b
  · exact ⟨fun _ => ⟨rfl, rfl, minimalHistoryOf_length_le _,
      fun it hit => minimalHistoryOf_fields hit⟩,
      fun htrue => by simp at htrue⟩
  · exact ⟨fun hfalse => by simp at hfalse, fun _ => rfl⟩

/-- Witness for C7: with an environment in which every write throws a
non-quota error, saving into an empty history takes the minimal-fallback
path. -/
theorem saveResearch_minimal_fallback_witness :
    (safeSetItem envAlwaysOther none
      (.items (cleanupHistory (mkNewItem 0 [] [] [] :: [])))).2 = false ∧
    (saveResearch envAlwaysOther 0 [] none [] [] []).history =
      minimalHistoryOf (cleanupHistory (mkNewItem 0 [] [] [] :: [])) :=
  ⟨rfl,
    ((saveResearch_minimal_fallback envAlwaysOther 0 [] none [] [] [] _ rfl).1 rfl).1⟩

/-- C10: when the initial persist is rejected as quota-exceeded and the
recovery stage succeeds, the persisted value becomes the compacted form of
the previously persisted (stale) collection — which does not contain the new
record's id — and the write is reported successful so the minimal fallback
is skipped; yet `saveResearch` still returns the new record's id and the new
record heads the in-memory collection, so the persisted and in-memory states
diverge. -/
theorem saveResearch_quota_divergence (env : Env) (now : Nat)
    (history stale : List ResearchHistoryItem)
    (question answer : Text) (orderedData : List Data)
    (h1 : env.attempt (storedText (.items (cleanupHistory
        (mkNewItem now question answer orderedData :: history)))) = .quota)
    (h2 : env.attempt (storedText (.items (cleanupHistory stale))) = .ok)
    (h3 : ∀ r ∈ stale, r.id ≠ (toString now).data)
    (h4 : ∀ r ∈ history, r.timestamp < now) :
    (saveResearch env now history (some (.items stale)) question answer orderedData).store =
      some (.items (cleanupHistory stale)) ∧
    (∀ it ∈ cleanupHistory stale, it.id ≠ (toString now).data) ∧
    (saveResearch env now history (some (.items stale)) question answer orderedData).ret =
      (toString now).data ∧
    (saveResearch env now history (some (.items stale)) question answer orderedData).history =
      cleanupHistory (mkNewItem now question answer orderedData :: history) ∧
    (∃ h0, (saveResearch env now history (some (.items stale))
        question answer orderedData).history.head? = some h0 ∧
      h0.id = (toString now).data ∧ h0.timestamp = now) := by
  have hss : safeSetItem env (some (.items stale))
      (.items (cleanupHistory (mkNewItem now question answer orderedData :: history))) =
      (some (.items (cleanupHistory stale)), true) := by
    simp only [safeSetItem, h1]
    rw [if_neg (by simpa [storedText] using encodeHistory_ne_nil stale)]
    simp only [h2]
  have hmem : ∀ it ∈ cleanupHistory stale, it.id ≠ (toString now).data := by
    intro it hit
    obtain ⟨o, ho, hid, _⟩ := mem_cleanupHistory hit
    rw [hid]
    exact h3 o ho
  have hhead := cleanupHistory_head_max (mkNewItem now question answer orderedData)
    history h4
  simp only [saveResearch]
  rw [hss]
  exact ⟨rfl, hmem, rfl, rfl, hhead⟩

/-- Witness for C10: the quota-then-recovery scenario with the concrete
environment `quotaOnNewEnv`, an empty in-memory history, and the one-record
stale collection `[staleItem]`. -/
theorem saveResearch_quota_divergence_witness :
    quotaOnNewEnv.attempt (storedText (.items (cleanupHistory
        (mkNewItem 1 [] [] [] :: [])))) = .quota ∧
    quotaOnNewEnv.attempt (storedText (.items (cleanupHistory [staleItem]))) = .ok ∧
    (∀ r ∈ [staleItem], r.id ≠ (toString 1).data) ∧
    (∀ r ∈ ([] : List ResearchHistoryItem), r.timestamp < 1) ∧
    (saveResearch quotaOnNewEnv 1 [] (some (.items [staleItem])) [] [] []).store =
      some (.items (cleanupHistory [staleItem])) ∧
    (saveResearch quotaOnNewEnv 1 [] (some (.items [staleItem])) [] [] []).ret =
      (toString 1).data := by
  have hA : quotaOnNewEnv.attempt (storedText (.items (cleanupHistory
      (mkNewItem 1 [] [] [] :: [])))) = .quota := by
    simp [quotaOnNewEnv]
  have hB : quotaOnNewEnv.attempt (storedText (.items (cleanupHistory [staleItem]))) = .ok := by
    have hstale : cleanupHistory [staleItem] = [staleItem] := by
      simp only [cleanupHistory, sortAndTrim, List.mergeSort_singleton]
      rfl
    have hnew : cleanupHistory [mkNewItem 1 [] [] []] = [mkNewItem 1 [] [] []] := by
      simp only [cleanupHistory, sortAndTrim, List.mergeSort_singleton]
      rfl
    simp only [quotaOnNewEnv, hstale, hnew]
    rw [if_neg]
    intro hcontra
    have := congrArg (fun t => t.take 30) hcontra
    revert this
    simp only [storedText, encodeHistory, List.map_cons, List.map_nil, itemToJVal,
      staleItem, mkNewItem, cleanAnswer, cleanData, jvalToText, arrBody, objBody]
    decide
  have hC : ∀ r ∈ [staleItem], r.id ≠ (toString 1).data := by decide
  have hD : ∀ r ∈ ([] : List ResearchHistoryItem), r.timestamp < 1 := by simp
  obtain ⟨s1, _, s3, _, _⟩ :=
    saveResearch_quota_divergence quotaOnNewEnv 1 [] [staleItem] [] [] [] hA hB hC hD
  exact ⟨hA, hB, hC, hD, s1, s3⟩


end ResearchHistory
